import Mathlib

/-!
Verification of the `ChatMemoryService` session store
(src/app/services/memory_service.py) against its specification.

The Python service keeps two dicts — `_memory : Dict[str, List[Tuple[str,str]]]`
(a `defaultdict(list)`) and `_last_activity : Dict[str, datetime]` — plus a
`session_timeout` duration.  We embed dicts as association lists (first
occurrence wins on lookup, in-place replacement on update, as in Python
dicts), wall-clock instants and durations as integers, and each method as a
pure function threading the state explicitly, with every `datetime.now()`
call surfaced as a `now : Int` parameter.

A second, heap-aware embedding (`PyState`) keeps the history lists as
numbered heap objects referenced from the dict, so that Python's aliasing
of list objects (e.g. the shallow copy made by `dict(self._memory)` in
`get_all_sessions`) is observable.
-/

namespace MemoryService

/-- One question/answer pair (the Python `Tuple[str, str]`). -/
abbrev Exchange := String × String

/-- A session's history (the Python `List[Tuple[str, str]]`). -/
abbrev History := List Exchange

/-- Python `d.get(k)` / `d[k]` read on a dict embedded as an association
list: the first entry with the given key. -/
def dictLookup {κ α : Type} [DecidableEq κ] (m : List (κ × α)) (k : κ) : Option α :=
  match m with
  | [] => none
  | (k', v) :: rest => if k' = k then some v else dictLookup rest k

/-- Python `d[k] = v`: replace the value at an existing key in place
(Python dicts keep the key's original position), otherwise append the new
binding at the end. -/
def dictInsert {κ α : Type} [DecidableEq κ] (m : List (κ × α)) (k : κ) (v : α) :
    List (κ × α) :=
  match m with
  | [] => [(k, v)]
  | (k', v') :: rest => if k' = k then (k, v) :: rest else (k', v') :: dictInsert rest k v

/-- Python `del d[k]` (a no-op when the key is absent, which the source
guards with `if k in d` where it matters). -/
def dictErase {κ α : Type} [DecidableEq κ] (m : List (κ × α)) (k : κ) : List (κ × α) :=
  m.filter (fun p => !(decide (p.1 = k)))

/-- The two dicts of `ChatMemoryService`.  `session_timeout` and the live
`settings.max_history_per_session` are passed to the operations as
parameters. -/
structure MemoryState where
  memory : List (String × History)
  last_activity : List (String × Int)
deriving DecidableEq, Repr

/-- Python's `lst[-k:]` slice: the last `k` elements — except that `lst[-0:]`
is `lst[0:]`, i.e. the whole list. -/
def pyLastSlice {α : Type} (l : List α) (k : Nat) : List α :=
  if k = 0 then l else l.drop (l.length - k)

/-- The size-limiting step of `add_exchange`:
`if len(h) > max_history: h = h[-max_history:]`. -/
def truncate_history (l : History) (max_history : Nat) : History :=
  if max_history < l.length then pyLastSlice l max_history else l

/-- The last `k` elements of a list (`min k l.length` of them). -/
def takeRight {α : Type} (k : Nat) (l : List α) : List α :=
  l.drop (l.length - k)

/-- The `inactive_sessions` list comprehension of
`_cleanup_inactive_sessions`: the session ids whose
`now - last_time > session_timeout`. -/
def inactiveKeys (la : List (String × Int)) (now timeout : Int) : List String :=
  (la.filter (fun p => decide (now - p.2 > timeout))).map Prod.fst

/-- `_cleanup_inactive_sessions`: collect the session ids whose
`now - last_time > session_timeout`, delete each one's history (when
present) and timestamp, and return the count collected. -/
def cleanup_inactive_sessions (s : MemoryState) (now timeout : Int) :
    MemoryState × Nat :=
  (⟨(inactiveKeys s.last_activity now timeout).foldl (fun m sid => dictErase m sid) s.memory,
    (inactiveKeys s.last_activity now timeout).foldl (fun m sid => dictErase m sid)
      s.last_activity⟩,
   (inactiveKeys s.last_activity now timeout).length)

/-- `add_exchange`: refresh the activity timestamp, run the opportunistic
cleanup, append `(question, answer)` via the `defaultdict` (so an absent
session starts from `[]`), and truncate with `lst[-max_history:]` when the
length exceeds the live `max_history` setting. -/
def add_exchange (s : MemoryState) (session_id question answer : String)
    (now timeout : Int) (max_history : Nat) : MemoryState :=
  let s2 := (cleanup_inactive_sessions ⟨s.memory, dictInsert s.last_activity session_id now⟩
    now timeout).1
  ⟨dictInsert s2.memory session_id
     (truncate_history ((dictLookup s2.memory session_id).getD [] ++ [(question, answer)])
       max_history),
   s2.last_activity⟩

/-- `get_history`: refresh the timestamp only when the session is in
`_memory`, and return `self._memory.get(session_id, [])` (which never
creates an entry). -/
def get_history (s : MemoryState) (session_id : String) (now : Int) :
    MemoryState × History :=
  (if (dictLookup s.memory session_id).isSome then
     ⟨s.memory, dictInsert s.last_activity session_id now⟩
   else s,
   (dictLookup s.memory session_id).getD [])

/-- `clear_session`: record whether the session id was in either dict,
delete it from both, and return that flag. -/
def clear_session (s : MemoryState) (session_id : String) : MemoryState × Bool :=
  (⟨dictErase s.memory session_id, dictErase s.last_activity session_id⟩,
   (dictLookup s.memory session_id).isSome || (dictLookup s.last_activity session_id).isSome)

/-- A LangChain message: `HumanMessage content` or `AIMessage content`. -/
inductive Message where
  | human (content : String)
  | ai (content : String)
deriving DecidableEq, Repr

/-- `get_langchain_format`: refresh the timestamp when the session exists,
call `get_history` (which refreshes again), and fold over the history
appending a human message for the question and an AI message for the
answer of each exchange. -/
def get_langchain_format (s : MemoryState) (session_id : String) (now : Int) :
    MemoryState × List Message :=
  let s1 : MemoryState :=
    if (dictLookup s.memory session_id).isSome then
      ⟨s.memory, dictInsert s.last_activity session_id now⟩
    else s
  let gh := get_history s1 session_id now
  (gh.1, gh.2.foldl (fun msgs p => msgs ++ [Message.human p.1, Message.ai p.2]) [])

/-- `get_all_sessions`: cleanup, then return `dict(self._memory)` — in the
value-level embedding, the entries of the memory dict. -/
def get_all_sessions (s : MemoryState) (now timeout : Int) :
    MemoryState × List (String × History) :=
  let s1 := (cleanup_inactive_sessions s now timeout).1
  (s1, s1.memory)

/-- `session_count`: cleanup, then `len(self._memory)`. -/
def session_count (s : MemoryState) (now timeout : Int) : MemoryState × Nat :=
  let s1 := (cleanup_inactive_sessions s now timeout).1
  (s1, s1.memory.length)

/-- The two shapes of dict returned by `get_session_info`: the
exists-false dict, or the full record.  `last_activity` is
`self._last_activity.get(session_id)`, hence an `Option`. -/
inductive SessionInfo where
  | absent
  | present (message_count : Nat) (last_activity : Option Int) (is_active : Bool)
deriving DecidableEq, Repr

/-- `get_session_info`: the exists-false dict when the id is not in `_memory`;
otherwise the record with the history length, the stored timestamp, and
`is_active` computed live as `session_id in self._last_activity and
now - self._last_activity[session_id] < self._session_timeout`.  The
method reads both dicts and writes neither. -/
def get_session_info (s : MemoryState) (session_id : String) (now timeout : Int) :
    MemoryState × SessionInfo :=
  match dictLookup s.memory session_id with
  | none => (s, SessionInfo.absent)
  | some h =>
      (s, SessionInfo.present h.length (dictLookup s.last_activity session_id)
        (match dictLookup s.last_activity session_id with
         | some t => decide (now - t < timeout)
         | none => false))

/-- Fold `add_exchange` calls for one session id over a list of
`(question, answer)` pairs with the instant of each call. -/
def runAdds (s : MemoryState) (session_id : String) (calls : List (Exchange × Int))
    (timeout : Int) (max_history : Nat) : MemoryState :=
  calls.foldl (fun st c => add_exchange st session_id c.1.1 c.1.2 c.2 timeout max_history) s

/-- The history a subsequent `self._memory[sid]` read (with `[]` default)
sees for a session id in a state. -/
def histOf (s : MemoryState) (session_id : String) : History :=
  (dictLookup s.memory session_id).getD []

/-- Whether the key `k` has an expired timestamp in the activity dict. -/
def expiredIn (la : List (String × Int)) (now timeout : Int) (k : String) : Bool :=
  match dictLookup la k with
  | some t => decide (now - t > timeout)
  | none => false

/-- The representation invariant of a Python dict embedded as an
association list: no key occurs twice. -/
def NodupKeys {κ α : Type} (m : List (κ × α)) : Prop :=
  (m.map Prod.fst).Nodup

/-- Both dicts of the state are genuine dicts (no duplicate keys). -/
def WF (s : MemoryState) : Prop :=
  NodupKeys s.memory ∧ NodupKeys s.last_activity

/-- The cross-dict invariant of the spec: a session id is a key of the
history dict iff it is a key of the activity dict (stated over the entries
of each dict, so it is decidable on concrete states). -/
def SyncKeys (s : MemoryState) : Prop :=
  (∀ p ∈ s.memory, (dictLookup s.last_activity p.1).isSome = true) ∧
  (∀ p ∈ s.last_activity, (dictLookup s.memory p.1).isSome = true)

/-!
### Heap-aware embedding

Python lists are mutable objects held by reference.  `dict(self._memory)`
copies the dict but shares the list objects, and
`self._memory[session_id].append(...)` mutates a list in place while
`self._memory[session_id] = ...[-max_history:]` rebinds the key to a fresh
list.  `PyState` makes this visible: the history lists live on a numbered
heap, and the memory dict maps session ids to heap addresses.
-/

/-- State of the service with history lists as heap objects: `heap` maps an
object id to its list contents, `memory` maps a session id to the object id
its dict entry references, and `nextId` is the next fresh object id. -/
structure PyState where
  heap : List (Nat × History)
  memory : List (String × Nat)
  last_activity : List (String × Int)
  nextId : Nat
deriving DecidableEq, Repr

/-- `_cleanup_inactive_sessions` on the heap-aware state: dict entries are
deleted; the heap objects themselves are merely unreferenced. -/
def cleanup_ref (s : PyState) (now timeout : Int) : PyState :=
  { s with
    memory := (inactiveKeys s.last_activity now timeout).foldl
      (fun m sid => dictErase m sid) s.memory,
    last_activity := (inactiveKeys s.last_activity now timeout).foldl
      (fun m sid => dictErase m sid) s.last_activity }

/-- In-place `lst.append(x)` on the heap object at address `r`. -/
def heapAppend (h : List (Nat × History)) (r : Nat) (x : Exchange) :
    List (Nat × History) :=
  match dictLookup h r with
  | some l => dictInsert h r (l ++ [x])
  | none => h

/-- `add_exchange` on the heap-aware state: timestamp refresh, cleanup,
`defaultdict` lookup (allocating a fresh empty list object when the key is
absent), in-place append, and — only when the length exceeds `max_history` —
rebinding the dict entry to a freshly allocated truncated list. -/
def add_exchange_ref (s : PyState) (session_id question answer : String)
    (now timeout : Int) (max_history : Nat) : PyState :=
  let s1 := { s with last_activity := dictInsert s.last_activity session_id now }
  let s2 := cleanup_ref s1 now timeout
  let rs :=
    match dictLookup s2.memory session_id with
    | some r => (r, s2)
    | none =>
        (s2.nextId,
         { s2 with
           heap := dictInsert s2.heap s2.nextId [],
           memory := dictInsert s2.memory session_id s2.nextId,
           nextId := s2.nextId + 1 })
  let r := rs.1
  let s3 := rs.2
  let s4 := { s3 with heap := heapAppend s3.heap r (question, answer) }
  let hist := (dictLookup s4.heap r).getD []
  if max_history < hist.length then
    { s4 with
      heap := dictInsert s4.heap s4.nextId (pyLastSlice hist max_history),
      memory := dictInsert s4.memory session_id s4.nextId,
      nextId := s4.nextId + 1 }
  else s4

/-- `clear_session` on the heap-aware state: both dict entries are deleted;
the heap object survives (it may still be referenced by a snapshot). -/
def clear_session_ref (s : PyState) (session_id : String) : PyState × Bool :=
  ({ s with
     memory := dictErase s.memory session_id,
     last_activity := dictErase s.last_activity session_id },
   (dictLookup s.memory session_id).isSome ||
     (dictLookup s.last_activity session_id).isSome)

/-- `get_all_sessions` on the heap-aware state: cleanup, then
`dict(self._memory)` — a copy of the key → object-reference table.  The
referenced list objects are shared, not copied. -/
def get_all_sessions_ref (s : PyState) (now timeout : Int) :
    PyState × List (String × Nat) :=
  let s1 := cleanup_ref s now timeout
  (s1, s1.memory)

/-- What a caller holding a returned snapshot sees for a session id at a
later moment: the snapshot's reference for that id, dereferenced through
the heap as it is then. -/
def observe (snapshot : List (String × Nat)) (heap : List (Nat × History))
    (session_id : String) : Option History :=
  (dictLookup snapshot session_id).map (fun r => (dictLookup heap r).getD [])

/-! ### Dictionary lemmas -/


variable {κ α : Type} [DecidableEq κ]

theorem dictLookup_insert (m : List (κ × α)) (k : κ) (v : α) :
    dictLookup (dictInsert m k v) k = some v := by
  induction m with
  | nil => simp [dictInsert, dictLookup]
  | cons p rest ih =>
      obtain ⟨a, b⟩ := p
      by_cases h : a = k
      · simp [dictInsert, dictLookup, h]
      · simp [dictInsert, dictLookup, h, ih]

theorem dictLookup_insert_ne (m : List (κ × α)) (k k' : κ) (v : α) (h : k' ≠ k) :
    dictLookup (dictInsert m k v) k' = dictLookup m k' := by
  induction m with
  | nil => simp [dictInsert, dictLookup, Ne.symm h]
  | cons p rest ih =>
      obtain ⟨a, b⟩ := p
      by_cases ha : a = k
      · subst ha
        simp [dictInsert, dictLookup, Ne.symm h]
      · by_cases ha' : a = k'
        · simp [dictInsert, dictLookup, ha, ha', h]
        · simp [dictInsert, dictLookup, ha, ha', ih]

theorem dictLookup_filterKey (m : List (κ × α)) (f : κ → Bool) (k : κ)
    (hk : f k = true) :
    dictLookup (m.filter (fun p => f p.1)) k = dictLookup m k := by
  induction m with
  | nil => simp [dictLookup]
  | cons p rest ih =>
      obtain ⟨a, b⟩ := p
      by_cases ha : a = k
      · subst ha
        simp [List.filter_cons, hk, dictLookup]
      · by_cases hf : f a
        · simp [List.filter_cons, hf, dictLookup, ha, ih]
        · simp [List.filter_cons, hf, dictLookup, ha, ih]

theorem dictLookup_filterKey_none (m : List (κ × α)) (f : κ → Bool) (k : κ)
    (hk : f k = false) :
    dictLookup (m.filter (fun p => f p.1)) k = none := by
  induction m with
  | nil => simp [dictLookup]
  | cons p rest ih =>
      obtain ⟨a, b⟩ := p
      by_cases ha : a = k
      · subst ha
        simp [List.filter_cons, hk, ih]
      · by_cases hf : f a
        · simp [List.filter_cons, hf, dictLookup, ha, ih]
        · simp [List.filter_cons, hf, ih]

theorem foldl_dictErase (ks : List κ) (m : List (κ × α)) :
    ks.foldl (fun m sid => dictErase m sid) m
      = m.filter (fun p => !(decide (p.1 ∈ ks))) := by
  induction ks generalizing m with
  | nil => simp
  | cons k ks ih =>
      rw [List.foldl_cons, ih, dictErase, List.filter_filter]
      apply List.filter_congr
      intro p _
      simp [List.mem_cons, not_or, Bool.and_comm]

theorem dictLookup_eq_none_iff (m : List (κ × α)) (k : κ) :
    dictLookup m k = none ↔ k ∉ m.map Prod.fst := by
  induction m with
  | nil => simp [dictLookup]
  | cons p rest ih =>
      obtain ⟨a, b⟩ := p
      by_cases ha : a = k
      · subst ha
        simp [dictLookup]
      · simp [dictLookup, ha, ih, Ne.symm ha]

theorem dictErase_of_lookup_none (m : List (κ × α)) (k : κ)
    (h : dictLookup m k = none) : dictErase m k = m := by
  refine List.filter_eq_self.mpr ?_
  intro p hp
  have hk : p.1 ≠ k := by
    intro hk
    exact (dictLookup_eq_none_iff m k).mp h (hk ▸ List.mem_map_of_mem Prod.fst hp)
  simp [hk]

theorem mem_of_dictLookup (m : List (κ × α)) (k : κ) (v : α)
    (h : dictLookup m k = some v) : (k, v) ∈ m := by
  induction m with
  | nil => simp [dictLookup] at h
  | cons p rest ih =>
      obtain ⟨a, b⟩ := p
      by_cases ha : a = k
      · subst ha
        simp [dictLookup] at h
        simp [h]
      · simp [dictLookup, ha] at h
        exact List.mem_cons_of_mem _ (ih h)

theorem dictLookup_of_mem (m : List (κ × α)) (k : κ) (v : α)
    (hnd : NodupKeys m) (h : (k, v) ∈ m) : dictLookup m k = some v := by
  induction m with
  | nil => simp at h
  | cons p rest ih =>
      obtain ⟨a, b⟩ := p
      rw [NodupKeys, List.map_cons, List.nodup_cons] at hnd
      rcases List.mem_cons.mp h with h1 | h1
      · injection h1.symm with h1a h1b
        subst h1a
        subst h1b
        simp [dictLookup]
      · by_cases ha : a = k
        · subst ha
          exact absurd (List.mem_map_of_mem Prod.fst h1) hnd.1
        · simp only [dictLookup, ha, if_false]
          exact ih hnd.2 h1

theorem mem_dictInsert (m : List (κ × α)) (k : κ) (v : α) (q : κ × α)
    (h : q ∈ dictInsert m k v) : q = (k, v) ∨ q ∈ m := by
  induction m with
  | nil =>
      simp [dictInsert] at h
      exact Or.inl h
  | cons p rest ih =>
      obtain ⟨a, b⟩ := p
      by_cases ha : a = k
      · subst ha
        simp [dictInsert] at h
        rcases h with h | h
        · exact Or.inl (by simp [h])
        · exact Or.inr (List.mem_cons_of_mem _ h)
      · simp [dictInsert, ha] at h
        rcases h with h | h
        · exact Or.inr (List.mem_cons.mpr (Or.inl (by simp [h])))
        · rcases ih h with h' | h'
          · exact Or.inl h'
          · exact Or.inr (List.mem_cons_of_mem _ h')

theorem nodupKeys_dictInsert (m : List (κ × α)) (k : κ) (v : α)
    (h : NodupKeys m) : NodupKeys (dictInsert m k v) := by
  induction m with
  | nil => simp [dictInsert, NodupKeys]
  | cons p rest ih =>
      obtain ⟨a, b⟩ := p
      rw [NodupKeys, List.map_cons, List.nodup_cons] at h
      by_cases ha : a = k
      · subst ha
        rw [NodupKeys]
        rw [show dictInsert ((a, b) :: rest) a v = (a, v) :: rest from by simp [dictInsert]]
        rw [List.map_cons, List.nodup_cons]
        exact ⟨h.1, h.2⟩
      · rw [NodupKeys]
        rw [show dictInsert ((a, b) :: rest) k v = (a, b) :: dictInsert rest k v from by
          simp [dictInsert, ha]]
        rw [List.map_cons, List.nodup_cons]
        refine ⟨?_, ih h.2⟩
        intro hmem
        rcases List.mem_map.mp hmem with ⟨q, hq, hfst⟩
        rcases mem_dictInsert rest k v q hq with h' | h'
        · subst h'
          exact ha hfst.symm
        · refine h.1 ?_
          rw [← hfst]
          exact List.mem_map_of_mem Prod.fst h'

theorem nodupKeys_filter (m : List (κ × α)) (f : κ × α → Bool)
    (h : NodupKeys m) : NodupKeys (m.filter f) :=
  ((List.filter_sublist m).map Prod.fst).nodup h

theorem mem_inactiveKeys_iff (la : List (String × Int)) (now timeout : Int)
    (k : String) (hnd : NodupKeys la) :
    k ∈ inactiveKeys la now timeout ↔ expiredIn la now timeout k = true := by
  constructor
  · intro h
    rcases List.mem_map.mp h with ⟨p, hp, rfl⟩
    rcases List.mem_filter.mp hp with ⟨hmem, hpred⟩
    have hl : dictLookup la p.1 = some p.2 := dictLookup_of_mem la p.1 p.2 hnd hmem
    simp only [expiredIn, hl]
    exact hpred
  · intro h
    simp only [expiredIn] at h
    rcases hl : dictLookup la k with _ | t
    · rw [hl] at h
      simp at h
    · rw [hl] at h
      exact List.mem_map.mpr
        ⟨(k, t), List.mem_filter.mpr ⟨mem_of_dictLookup la k t hl, h⟩, rfl⟩

theorem cleanup_last_activity (s : MemoryState) (now timeout : Int)
    (hnd : NodupKeys s.last_activity) :
    (cleanup_inactive_sessions s now timeout).1.last_activity
      = s.last_activity.filter (fun p => !(decide (now - p.2 > timeout))) := by
  rw [show (cleanup_inactive_sessions s now timeout).1.last_activity
      = (inactiveKeys s.last_activity now timeout).foldl (fun m sid => dictErase m sid)
          s.last_activity from rfl]
  rw [foldl_dictErase]
  apply List.filter_congr
  intro p hp
  by_cases hE : now - p.2 > timeout
  · have hk : p.1 ∈ inactiveKeys s.last_activity now timeout :=
      List.mem_map.mpr ⟨p, List.mem_filter.mpr ⟨hp, decide_eq_true hE⟩, rfl⟩
    simp [hk, hE]
  · have hk : p.1 ∉ inactiveKeys s.last_activity now timeout := by
      intro hmem
      have hx := (mem_inactiveKeys_iff s.last_activity now timeout p.1 hnd).mp hmem
      have hl : dictLookup s.last_activity p.1 = some p.2 :=
        dictLookup_of_mem s.last_activity p.1 p.2 hnd hp
      simp only [expiredIn, hl] at hx
      exact hE (of_decide_eq_true hx)
    simp [hk, hE]

theorem cleanup_memory (s : MemoryState) (now timeout : Int)
    (hnd : NodupKeys s.last_activity) :
    (cleanup_inactive_sessions s now timeout).1.memory
      = s.memory.filter (fun p => !(expiredIn s.last_activity now timeout p.1)) := by
  rw [show (cleanup_inactive_sessions s now timeout).1.memory
      = (inactiveKeys s.last_activity now timeout).foldl (fun m sid => dictErase m sid)
          s.memory from rfl]
  rw [foldl_dictErase]
  apply List.filter_congr
  intro p _
  by_cases hE : expiredIn s.last_activity now timeout p.1 = true
  · have hk := (mem_inactiveKeys_iff s.last_activity now timeout p.1 hnd).mpr hE
    simp [hk, hE]
  · have hk : p.1 ∉ inactiveKeys s.last_activity now timeout := fun hmem =>
      hE ((mem_inactiveKeys_iff s.last_activity now timeout p.1 hnd).mp hmem)
    simp only [Bool.not_eq_true] at hE
    simp [hk, hE]

theorem cleanup_count (s : MemoryState) (now timeout : Int) :
    (cleanup_inactive_sessions s now timeout).2
      = (s.last_activity.filter (fun p => decide (now - p.2 > timeout))).length := by
  rw [show (cleanup_inactive_sessions s now timeout).2
      = (inactiveKeys s.last_activity now timeout).length from rfl]
  rw [inactiveKeys, List.length_map]

theorem cleanup_lookup_last_activity (s : MemoryState) (now timeout : Int)
    (hnd : NodupKeys s.last_activity) (k : String) :
    dictLookup (cleanup_inactive_sessions s now timeout).1.last_activity k
      = if expiredIn s.last_activity now timeout k = true then none
        else dictLookup s.last_activity k := by
  rw [show (cleanup_inactive_sessions s now timeout).1.last_activity
      = (inactiveKeys s.last_activity now timeout).foldl (fun m sid => dictErase m sid)
          s.last_activity from rfl]
  rw [foldl_dictErase]
  by_cases hE : expiredIn s.last_activity now timeout k = true
  · rw [if_pos hE]
    exact dictLookup_filterKey_none s.last_activity
      (fun x => !(decide (x ∈ inactiveKeys s.last_activity now timeout))) k
      (by simp [(mem_inactiveKeys_iff s.last_activity now timeout k hnd).mpr hE])
  · rw [if_neg hE]
    exact dictLookup_filterKey s.last_activity
      (fun x => !(decide (x ∈ inactiveKeys s.last_activity now timeout))) k
      (by
        have hk : k ∉ inactiveKeys s.last_activity now timeout := fun hmem =>
          hE ((mem_inactiveKeys_iff s.last_activity now timeout k hnd).mp hmem)
        simp [hk])

theorem cleanup_lookup_memory (s : MemoryState) (now timeout : Int)
    (hnd : NodupKeys s.last_activity) (k : String) :
    dictLookup (cleanup_inactive_sessions s now timeout).1.memory k
      = if expiredIn s.last_activity now timeout k = true then none
        else dictLookup s.memory k := by
  rw [show (cleanup_inactive_sessions s now timeout).1.memory
      = (inactiveKeys s.last_activity now timeout).foldl (fun m sid => dictErase m sid)
          s.memory from rfl]
  rw [foldl_dictErase]
  by_cases hE : expiredIn s.last_activity now timeout k = true
  · rw [if_pos hE]
    exact dictLookup_filterKey_none s.memory
      (fun x => !(decide (x ∈ inactiveKeys s.last_activity now timeout))) k
      (by simp [(mem_inactiveKeys_iff s.last_activity now timeout k hnd).mpr hE])
  · rw [if_neg hE]
    exact dictLookup_filterKey s.memory
      (fun x => !(decide (x ∈ inactiveKeys s.last_activity now timeout))) k
      (by
        have hk : k ∉ inactiveKeys s.last_activity now timeout := fun hmem =>
          hE ((mem_inactiveKeys_iff s.last_activity now timeout k hnd).mp hmem)
        simp [hk])

theorem nodupKeys_foldl_dictErase (ks : List κ) (m : List (κ × α))
    (h : NodupKeys m) :
    NodupKeys (ks.foldl (fun m sid => dictErase m sid) m) := by
  rw [foldl_dictErase]
  exact nodupKeys_filter _ _ h

theorem add_exchange_memory (s : MemoryState) (sid q a : String)
    (now timeout : Int) (maxh : Nat) :
    (add_exchange s sid q a now timeout maxh).memory
      = dictInsert
          (cleanup_inactive_sessions ⟨s.memory, dictInsert s.last_activity sid now⟩
            now timeout).1.memory sid
          (truncate_history
            ((dictLookup (cleanup_inactive_sessions
                ⟨s.memory, dictInsert s.last_activity sid now⟩ now timeout).1.memory
              sid).getD [] ++ [(q, a)]) maxh) := rfl

theorem add_exchange_last_activity (s : MemoryState) (sid q a : String)
    (now timeout : Int) (maxh : Nat) :
    (add_exchange s sid q a now timeout maxh).last_activity
      = (cleanup_inactive_sessions ⟨s.memory, dictInsert s.last_activity sid now⟩
          now timeout).1.last_activity := rfl

theorem expiredIn_insert_self (la : List (String × Int)) (sid : String)
    (now timeout : Int) (ht : 0 ≤ timeout) :
    expiredIn (dictInsert la sid now) now timeout sid = false := by
  simp only [expiredIn, dictLookup_insert]
  simp only [decide_eq_false_iff_not, not_lt]
  omega

theorem nodupKeys_la_add_exchange (s : MemoryState) (sid q a : String)
    (now timeout : Int) (maxh : Nat) (hnd : NodupKeys s.last_activity) :
    NodupKeys (add_exchange s sid q a now timeout maxh).last_activity := by
  rw [add_exchange_last_activity]
  rw [show (cleanup_inactive_sessions ⟨s.memory, dictInsert s.last_activity sid now⟩
      now timeout).1.last_activity
      = (inactiveKeys (dictInsert s.last_activity sid now) now timeout).foldl
          (fun m sid => dictErase m sid) (dictInsert s.last_activity sid now) from rfl]
  exact nodupKeys_foldl_dictErase _ _ (nodupKeys_dictInsert _ _ _ hnd)

theorem histOf_add_exchange (s : MemoryState) (sid q a : String)
    (now timeout : Int) (maxh : Nat)
    (hnd : NodupKeys s.last_activity) (ht : 0 ≤ timeout) :
    histOf (add_exchange s sid q a now timeout maxh) sid
      = truncate_history (histOf s sid ++ [(q, a)]) maxh := by
  have hnd1 : NodupKeys (dictInsert s.last_activity sid now) :=
    nodupKeys_dictInsert _ _ _ hnd
  have hmem : dictLookup (cleanup_inactive_sessions
      ⟨s.memory, dictInsert s.last_activity sid now⟩ now timeout).1.memory sid
      = dictLookup s.memory sid := by
    rw [cleanup_lookup_memory ⟨s.memory, dictInsert s.last_activity sid now⟩
      now timeout hnd1 sid]
    rw [if_neg (by rw [expiredIn_insert_self s.last_activity sid now timeout ht]; simp)]
  rw [histOf, add_exchange_memory, dictLookup_insert, Option.getD_some, hmem]
  rfl

theorem truncate_takeRight (acc : History) (p : Exchange) (maxh : Nat)
    (hm : 0 < maxh) :
    truncate_history (takeRight maxh acc ++ [p]) maxh = takeRight maxh (acc ++ [p]) := by
  by_cases hlen : acc.length < maxh
  · have h1 : takeRight maxh acc = acc := by
      rw [takeRight, Nat.sub_eq_zero_of_le (Nat.le_of_lt hlen), List.drop_zero]
    rw [h1, truncate_history, if_neg (by simp; omega), takeRight,
      Nat.sub_eq_zero_of_le (by simp; omega), List.drop_zero]
  · have hml : maxh ≤ acc.length := Nat.le_of_not_lt hlen
    have h2 : (takeRight maxh acc).length = maxh := by
      rw [takeRight, List.length_drop]
      omega
    rw [truncate_history, if_pos (by rw [List.length_append, h2]; simp)]
    rw [pyLastSlice, if_neg (by omega)]
    rw [show (takeRight maxh acc ++ [p]).length - maxh = 1 by
      rw [List.length_append, h2]; simp]
    rw [takeRight, takeRight, List.drop_append_eq_append_drop,
      List.drop_append_eq_append_drop, List.drop_drop]
    rw [show 1 - (acc.drop (acc.length - maxh)).length = 0 by
      rw [List.length_drop]; omega]
    rw [show List.length (acc ++ [p]) = acc.length + 1 by simp]
    rw [show acc.length + 1 - maxh - acc.length = 0 by omega]
    rw [show acc.length - maxh + 1 = acc.length + 1 - maxh by omega]

theorem histOf_runAdds (sid : String) (timeout : Int) (maxh : Nat)
    (ht : 0 ≤ timeout) (hm : 0 < maxh) :
    ∀ (calls : List (Exchange × Int)) (s : MemoryState) (acc : History),
      NodupKeys s.last_activity →
      histOf s sid = takeRight maxh acc →
      histOf (runAdds s sid calls timeout maxh) sid
        = takeRight maxh (acc ++ calls.map Prod.fst) := by
  intro calls
  induction calls with
  | nil =>
      intro s acc hnd hh
      simpa [runAdds] using hh
  | cons c rest ih =>
      intro s acc hnd hh
      rw [show runAdds s sid (c :: rest) timeout maxh
          = runAdds (add_exchange s sid c.1.1 c.1.2 c.2 timeout maxh) sid rest
              timeout maxh from rfl]
      rw [ih (add_exchange s sid c.1.1 c.1.2 c.2 timeout maxh) (acc ++ [c.1])
        (nodupKeys_la_add_exchange s sid c.1.1 c.1.2 c.2 timeout maxh hnd)
        (by
          rw [histOf_add_exchange s sid c.1.1 c.1.2 c.2 timeout maxh hnd ht, hh]
          exact truncate_takeRight acc c.1 maxh hm)]
      rw [List.map_cons]
      congr 1
      simp

theorem dictLookup_isSome_of_mem (m : List (κ × α)) (k : κ) (v : α)
    (h : (k, v) ∈ m) : (dictLookup m k).isSome = true := by
  induction m with
  | nil => simp at h
  | cons p rest ih =>
      obtain ⟨a, b⟩ := p
      by_cases ha : a = k
      · subst ha
        simp [dictLookup]
      · rcases List.mem_cons.mp h with h1 | h1
        · exact absurd (congrArg Prod.fst h1.symm) ha
        · simp only [dictLookup, ha, if_false]
          exact ih h1

theorem dictLookup_dictErase_self (m : List (κ × α)) (k : κ) :
    dictLookup (dictErase m k) k = none :=
  dictLookup_filterKey_none m (fun x => !(decide (x = k))) k (by simp)

theorem dictLookup_dictErase_ne (m : List (κ × α)) (k k' : κ) (h : k' ≠ k) :
    dictLookup (dictErase m k) k' = dictLookup m k' :=
  dictLookup_filterKey m (fun x => !(decide (x = k))) k' (by simp [h])

theorem syncKeys_iff (s : MemoryState) :
    SyncKeys s ↔ ∀ k, (dictLookup s.memory k).isSome
      = (dictLookup s.last_activity k).isSome := by
  constructor
  · intro hsk k
    rcases hm : dictLookup s.memory k with _ | v
    · rcases hl : dictLookup s.last_activity k with _ | t
      · rfl
      · have := hsk.2 (k, t) (mem_of_dictLookup _ _ _ hl)
        rw [hm] at this
        simp at this
    · rw [hsk.1 (k, v) (mem_of_dictLookup _ _ _ hm)]
      rfl
  · intro hiff
    constructor
    · intro p hp
      rw [← hiff p.1]
      exact dictLookup_isSome_of_mem s.memory p.1 p.2 hp
    · intro p hp
      rw [hiff p.1]
      exact dictLookup_isSome_of_mem s.last_activity p.1 p.2 hp

theorem get_session_info_state (s : MemoryState) (sid : String)
    (now timeout : Int) : (get_session_info s sid now timeout).1 = s := by
  rcases hl : dictLookup s.memory sid with _ | h <;> simp [get_session_info, hl]

theorem foldl_msgs (l : History) (acc : List Message) :
    l.foldl (fun msgs p => msgs ++ [Message.human p.1, Message.ai p.2]) acc
      = acc ++ l.flatMap (fun p => [Message.human p.1, Message.ai p.2]) := by
  induction l generalizing acc with
  | nil => simp
  | cons p rest ih => simp [ih]

theorem flatMap_msgs_length (l : History) :
    (l.flatMap (fun p => [Message.human p.1, Message.ai p.2])).length
      = 2 * l.length := by
  induction l with
  | nil => simp
  | cons p rest ih =>
      rw [List.flatMap_cons, List.length_append, ih, List.length_cons]
      simp
      omega

theorem cleanup_mk_lookup_last_activity (mem : List (String × History))
    (la : List (String × Int)) (now timeout : Int) (hnd : NodupKeys la)
    (k : String) :
    dictLookup (cleanup_inactive_sessions ⟨mem, la⟩ now timeout).1.last_activity k
      = if expiredIn la now timeout k = true then none else dictLookup la k :=
  cleanup_lookup_last_activity ⟨mem, la⟩ now timeout hnd k

theorem cleanup_mk_lookup_memory (mem : List (String × History))
    (la : List (String × Int)) (now timeout : Int) (hnd : NodupKeys la)
    (k : String) :
    dictLookup (cleanup_inactive_sessions ⟨mem, la⟩ now timeout).1.memory k
      = if expiredIn la now timeout k = true then none else dictLookup mem k :=
  cleanup_lookup_memory ⟨mem, la⟩ now timeout hnd k

/-! ### Claim theorems -/

/-- Claim C1: starting from a state that has no history entry for session
`S`, after any sequence of `n` `add_exchange(S, qᵢ, aᵢ)` calls (with a
fixed positive `max_history` consulted at each write and a nonnegative
timeout), `get_history(S)` returns exactly the last `min(n, max_history)`
pairs in call order; overflowing entries are dropped from the front. -/
theorem claim_C1_bounded_history (s0 : MemoryState) (sid : String)
    (calls : List (Exchange × Int)) (now' timeout : Int) (maxh : Nat)
    (hnd : NodupKeys s0.last_activity) (hmem : dictLookup s0.memory sid = none)
    (hm : 0 < maxh) (ht : 0 ≤ timeout) :
    (get_history (runAdds s0 sid calls timeout maxh) sid now').2
        = (calls.map Prod.fst).drop (calls.length - maxh)
      ∧ (get_history (runAdds s0 sid calls timeout maxh) sid now').2.length
        = min calls.length maxh := by
  have h0 : histOf s0 sid = takeRight maxh [] := by
    simp [histOf, hmem, takeRight]
  have hmain := histOf_runAdds sid timeout maxh ht hm calls s0 [] hnd h0
  have hret : (get_history (runAdds s0 sid calls timeout maxh) sid now').2
      = histOf (runAdds s0 sid calls timeout maxh) sid := rfl
  rw [hret, hmain]
  constructor
  · rw [List.nil_append, takeRight, List.length_map]
  · rw [List.nil_append, takeRight, List.length_drop, List.length_map]
    omega

/-- Witness for C1 at the spec's own example: `max_history = 3`, four
consecutive adds — the last three exchanges survive. -/
theorem claim_C1_bounded_history_witness :
    NodupKeys (MemoryState.mk [] []).last_activity
    ∧ dictLookup (MemoryState.mk [] []).memory "s1" = none
    ∧ 0 < 3
    ∧ (0:Int) ≤ 100
    ∧ ((get_history (runAdds ⟨[], []⟩ "s1"
          [(("q1","a1"),(0:Int)), (("q2","a2"),0), (("q3","a3"),0), (("q4","a4"),0)]
          100 3) "s1" 0).2
        = ([(("q1","a1"),(0:Int)), (("q2","a2"),0), (("q3","a3"),0),
            (("q4","a4"),0)].map Prod.fst).drop
            ([(("q1","a1"),(0:Int)), (("q2","a2"),0), (("q3","a3"),0),
              (("q4","a4"),0)].length - 3)
      ∧ (get_history (runAdds ⟨[], []⟩ "s1"
          [(("q1","a1"),(0:Int)), (("q2","a2"),0), (("q3","a3"),0), (("q4","a4"),0)]
          100 3) "s1" 0).2.length
        = min [(("q1","a1"),(0:Int)), (("q2","a2"),0), (("q3","a3"),0),
            (("q4","a4"),0)].length 3) :=
  ⟨by rw [NodupKeys]; simp, rfl, by decide, by decide,
   claim_C1_bounded_history ⟨[], []⟩ "s1"
     [(("q1","a1"),(0:Int)), (("q2","a2"),0), (("q3","a3"),0), (("q4","a4"),0)]
     0 100 3 (by rw [NodupKeys]; simp) rfl (by decide) (by decide)⟩

/-- Claim C2: the sweep keeps exactly the activity entries with
`now - last_activity ≤ session_timeout` and the histories of unexpired
keys (history and timestamp leave together), and returns the number of
expired sessions; an entry at exactly `now - session_timeout` survives the
sweep, and one at `now - session_timeout - 1` is removed from both maps. -/
theorem claim_C2_sweep (s : MemoryState) (now timeout : Int)
    (hnd : NodupKeys s.last_activity) :
    ((cleanup_inactive_sessions s now timeout).1.last_activity
        = s.last_activity.filter (fun p => !(decide (now - p.2 > timeout))))
    ∧ ((cleanup_inactive_sessions s now timeout).1.memory
        = s.memory.filter (fun p => !(expiredIn s.last_activity now timeout p.1)))
    ∧ ((cleanup_inactive_sessions s now timeout).2
        = (s.last_activity.filter (fun p => decide (now - p.2 > timeout))).length)
    ∧ (∀ k, (k, now - timeout) ∈ s.last_activity →
        (k, now - timeout) ∈ (cleanup_inactive_sessions s now timeout).1.last_activity)
    ∧ (∀ k, (k, now - timeout - 1) ∈ s.last_activity →
        dictLookup (cleanup_inactive_sessions s now timeout).1.last_activity k = none
        ∧ dictLookup (cleanup_inactive_sessions s now timeout).1.memory k = none) := by
  refine ⟨cleanup_last_activity s now timeout hnd, cleanup_memory s now timeout hnd,
    cleanup_count s now timeout, ?_, ?_⟩
  · intro k hk
    rw [cleanup_last_activity s now timeout hnd]
    refine List.mem_filter.mpr ⟨hk, ?_⟩
    simp
  · intro k hk
    have hexp : expiredIn s.last_activity now timeout k = true := by
      have hl := dictLookup_of_mem s.last_activity k (now - timeout - 1) hnd hk
      simp only [expiredIn, hl, decide_eq_true_eq]
      omega
    exact ⟨by rw [cleanup_lookup_last_activity s now timeout hnd k, if_pos hexp],
      by rw [cleanup_lookup_memory s now timeout hnd k, if_pos hexp]⟩

/-- Witness for C2 at a boundary state: session `a` exactly at the timeout
survives, session `b` one second past it is removed from both maps. -/
theorem claim_C2_sweep_witness :
    NodupKeys (MemoryState.mk [("a", [("q","a")]), ("b", [("q","b")])]
      [("a", 900), ("b", 899)]).last_activity
    ∧ (((cleanup_inactive_sessions
          ⟨[("a", [("q","a")]), ("b", [("q","b")])], [("a", 900), ("b", 899)]⟩
          1000 100).1.last_activity
        = [("a", (900:Int)), ("b", 899)].filter
            (fun p => !(decide ((1000:Int) - p.2 > 100))))
      ∧ ((cleanup_inactive_sessions
          ⟨[("a", [("q","a")]), ("b", [("q","b")])], [("a", 900), ("b", 899)]⟩
          1000 100).1.memory
        = [("a", [("q","a")]), ("b", [("q","b")])].filter
            (fun p => !(expiredIn [("a", (900:Int)), ("b", 899)] 1000 100 p.1)))
      ∧ ((cleanup_inactive_sessions
          ⟨[("a", [("q","a")]), ("b", [("q","b")])], [("a", 900), ("b", 899)]⟩
          1000 100).2
        = ([("a", (900:Int)), ("b", 899)].filter
            (fun p => decide ((1000:Int) - p.2 > 100))).length)
      ∧ (∀ k, (k, (1000:Int) - 100) ∈ [("a", (900:Int)), ("b", 899)] →
          (k, (1000:Int) - 100) ∈ (cleanup_inactive_sessions
            ⟨[("a", [("q","a")]), ("b", [("q","b")])], [("a", 900), ("b", 899)]⟩
            1000 100).1.last_activity)
      ∧ (∀ k, (k, (1000:Int) - 100 - 1) ∈ [("a", (900:Int)), ("b", 899)] →
          dictLookup (cleanup_inactive_sessions
            ⟨[("a", [("q","a")]), ("b", [("q","b")])], [("a", 900), ("b", 899)]⟩
            1000 100).1.last_activity k = none
          ∧ dictLookup (cleanup_inactive_sessions
            ⟨[("a", [("q","a")]), ("b", [("q","b")])], [("a", 900), ("b", 899)]⟩
            1000 100).1.memory k = none)) :=
  ⟨by rw [NodupKeys]; simp,
   claim_C2_sweep ⟨[("a", [("q","a")]), ("b", [("q","b")])], [("a", 900), ("b", 899)]⟩
     1000 100 (by rw [NodupKeys]; simp)⟩

/-- Claim C3: every public operation — and the sweep itself — preserves the
invariant that a session id is a key of the history dict iff it is a key of
the activity dict, for a well-formed store and nonnegative timeout. -/
theorem claim_C3_sync_invariant (s : MemoryState) (sid q a : String)
    (now timeout : Int) (maxh : Nat)
    (hwf : WF s) (ht : 0 ≤ timeout) (hsync0 : SyncKeys s) :
    SyncKeys (add_exchange s sid q a now timeout maxh)
    ∧ SyncKeys (get_history s sid now).1
    ∧ SyncKeys (clear_session s sid).1
    ∧ SyncKeys (get_langchain_format s sid now).1
    ∧ SyncKeys (get_all_sessions s now timeout).1
    ∧ SyncKeys (session_count s now timeout).1
    ∧ SyncKeys (get_session_info s sid now timeout).1
    ∧ SyncKeys (cleanup_inactive_sessions s now timeout).1 := by
  obtain ⟨hndm, hndl⟩ := hwf
  have hsync := (syncKeys_iff s).mp hsync0
  have hclean : SyncKeys (cleanup_inactive_sessions s now timeout).1 := by
    rw [syncKeys_iff]
    intro k
    rw [cleanup_lookup_memory s now timeout hndl k,
      cleanup_lookup_last_activity s now timeout hndl k]
    by_cases hE : expiredIn s.last_activity now timeout k = true
    · rw [if_pos hE, if_pos hE]
      rfl
    · rw [if_neg hE, if_neg hE]
      exact hsync k
  have hget : SyncKeys (get_history s sid now).1 := by
    by_cases hs : (dictLookup s.memory sid).isSome = true
    · have hstate : (get_history s sid now).1
          = ⟨s.memory, dictInsert s.last_activity sid now⟩ := by
        simp [get_history, hs]
      rw [hstate, syncKeys_iff]
      intro k
      show (dictLookup s.memory k).isSome
          = (dictLookup (dictInsert s.last_activity sid now) k).isSome
      by_cases hk : k = sid
      · subst hk
        rw [dictLookup_insert]
        simp [hs]
      · rw [dictLookup_insert_ne s.last_activity sid k now hk]
        exact hsync k
    · have hstate : (get_history s sid now).1 = s := by
        simp [get_history, hs]
      rw [hstate]
      exact hsync0
  have hclear : SyncKeys (clear_session s sid).1 := by
    rw [syncKeys_iff]
    intro k
    show (dictLookup (dictErase s.memory sid) k).isSome
        = (dictLookup (dictErase s.last_activity sid) k).isSome
    by_cases hk : k = sid
    · subst hk
      rw [dictLookup_dictErase_self, dictLookup_dictErase_self]
      rfl
    · rw [dictLookup_dictErase_ne s.memory sid k hk,
        dictLookup_dictErase_ne s.last_activity sid k hk]
      exact hsync k
  have hlang : SyncKeys (get_langchain_format s sid now).1 := by
    by_cases hs : (dictLookup s.memory sid).isSome = true
    · have hstate : (get_langchain_format s sid now).1
          = ⟨s.memory, dictInsert (dictInsert s.last_activity sid now) sid now⟩ := by
        simp [get_langchain_format, get_history, hs]
      rw [hstate, syncKeys_iff]
      intro k
      show (dictLookup s.memory k).isSome
          = (dictLookup (dictInsert (dictInsert s.last_activity sid now) sid now)
              k).isSome
      by_cases hk : k = sid
      · subst hk
        rw [dictLookup_insert]
        simp [hs]
      · rw [dictLookup_insert_ne _ sid k now hk, dictLookup_insert_ne _ sid k now hk]
        exact hsync k
    · have hstate : (get_langchain_format s sid now).1 = s := by
        simp [get_langchain_format, get_history, hs]
      rw [hstate]
      exact hsync0
  have hadd : SyncKeys (add_exchange s sid q a now timeout maxh) := by
    have hnd1 : NodupKeys (dictInsert s.last_activity sid now) :=
      nodupKeys_dictInsert _ _ _ hndl
    rw [syncKeys_iff]
    intro k
    rw [add_exchange_memory, add_exchange_last_activity,
      cleanup_mk_lookup_last_activity s.memory (dictInsert s.last_activity sid now)
        now timeout hnd1 k]
    by_cases hk : k = sid
    · subst hk
      rw [dictLookup_insert,
        if_neg (by simp [expiredIn_insert_self s.last_activity k now timeout ht]),
        dictLookup_insert]
      rfl
    · rw [dictLookup_insert_ne _ sid k _ hk,
        cleanup_mk_lookup_memory s.memory (dictInsert s.last_activity sid now)
          now timeout hnd1 k]
      by_cases hE : expiredIn (dictInsert s.last_activity sid now) now timeout k = true
      · rw [if_pos hE, if_pos hE]
        rfl
      · rw [if_neg hE, if_neg hE, dictLookup_insert_ne s.last_activity sid k now hk]
        exact hsync k
  exact ⟨hadd, hget, hclear, hlang, hclean, hclean,
    by rw [get_session_info_state]; exact hsync0, hclean⟩

/-- Witness for C3 at a one-session store. -/
theorem claim_C3_sync_invariant_witness :
    WF (⟨[("s1", [("q","a")])], [("s1", (0:Int))]⟩ : MemoryState)
    ∧ (0:Int) ≤ 100
    ∧ SyncKeys (⟨[("s1", [("q","a")])], [("s1", (0:Int))]⟩ : MemoryState)
    ∧ (SyncKeys (add_exchange (⟨[("s1", [("q","a")])], [("s1", (0:Int))]⟩ : MemoryState) "s1" "q2" "a2" 1 100 5)
      ∧ SyncKeys (get_history (⟨[("s1", [("q","a")])], [("s1", (0:Int))]⟩ : MemoryState) "s1" 1).1
      ∧ SyncKeys (clear_session (⟨[("s1", [("q","a")])], [("s1", (0:Int))]⟩ : MemoryState) "s1").1
      ∧ SyncKeys (get_langchain_format (⟨[("s1", [("q","a")])], [("s1", (0:Int))]⟩ : MemoryState) "s1" 1).1
      ∧ SyncKeys (get_all_sessions (⟨[("s1", [("q","a")])], [("s1", (0:Int))]⟩ : MemoryState) 1 100).1
      ∧ SyncKeys (session_count (⟨[("s1", [("q","a")])], [("s1", (0:Int))]⟩ : MemoryState) 1 100).1
      ∧ SyncKeys (get_session_info (⟨[("s1", [("q","a")])], [("s1", (0:Int))]⟩ : MemoryState) "s1" 1 100).1
      ∧ SyncKeys (cleanup_inactive_sessions (⟨[("s1", [("q","a")])], [("s1", (0:Int))]⟩ : MemoryState) 1 100).1) :=
  ⟨⟨by rw [NodupKeys]; simp, by rw [NodupKeys]; simp⟩,
   by decide,
   ⟨by intro p hp; simp at hp; subst hp; decide,
    by intro p hp; simp at hp; subst hp; decide⟩,
   claim_C3_sync_invariant (⟨[("s1", [("q","a")])], [("s1", (0:Int))]⟩ : MemoryState) "s1" "q2" "a2" 1 100 5
     ⟨by rw [NodupKeys]; simp, by rw [NodupKeys]; simp⟩
     (by decide)
     ⟨by intro p hp; simp at hp; subst hp; decide,
      by intro p hp; simp at hp; subst hp; decide⟩⟩

/-- Claim C4: `clear_session` returns whether the session existed (a
history entry or a timestamp); on a nonexistent session it returns false
and leaves the state unchanged, so a second consecutive clear returns
false; after a clear, `get_history` is empty and `get_session_info`
reports absence. -/
theorem claim_C4_clear_session (s : MemoryState) (sid : String)
    (now timeout : Int) :
    ((clear_session s sid).2
        = ((dictLookup s.memory sid).isSome
            || (dictLookup s.last_activity sid).isSome))
    ∧ ((clear_session s sid).2 = false → (clear_session s sid).1 = s)
    ∧ (clear_session (clear_session s sid).1 sid).2 = false
    ∧ (get_history (clear_session s sid).1 sid now).2 = []
    ∧ (get_session_info (clear_session s sid).1 sid now timeout).2
        = SessionInfo.absent := by
  refine ⟨rfl, ?_, ?_, ?_, ?_⟩
  · intro h
    have h2 : ((dictLookup s.memory sid).isSome
        || (dictLookup s.last_activity sid).isSome) = false := h
    rw [Bool.or_eq_false_iff] at h2
    have hm : dictLookup s.memory sid = none := by
      rcases hx : dictLookup s.memory sid with _ | v
      · rfl
      · rw [hx] at h2
        simp at h2
    have hl : dictLookup s.last_activity sid = none := by
      rcases hx : dictLookup s.last_activity sid with _ | t
      · rfl
      · rw [hx] at h2
        simp at h2
    show (⟨dictErase s.memory sid, dictErase s.last_activity sid⟩ : MemoryState) = s
    rw [dictErase_of_lookup_none s.memory sid hm,
      dictErase_of_lookup_none s.last_activity sid hl]
  · show ((dictLookup (dictErase s.memory sid) sid).isSome
        || (dictLookup (dictErase s.last_activity sid) sid).isSome) = false
    rw [dictLookup_dictErase_self, dictLookup_dictErase_self]
    rfl
  · show (dictLookup (dictErase s.memory sid) sid).getD [] = []
    rw [dictLookup_dictErase_self]
    rfl
  · show (get_session_info ⟨dictErase s.memory sid, dictErase s.last_activity sid⟩
        sid now timeout).2 = SessionInfo.absent
    simp [get_session_info, dictLookup_dictErase_self]

/-- Witness for C4 at a one-session store, clearing the existing session. -/
theorem claim_C4_clear_session_witness :
    ((clear_session (⟨[("s1", [("q","a")])], [("s1", (0:Int))]⟩ : MemoryState) "s1").2
        = ((dictLookup (⟨[("s1", [("q","a")])], [("s1", (0:Int))]⟩ : MemoryState).memory
              "s1").isSome
            || (dictLookup (⟨[("s1", [("q","a")])],
                [("s1", (0:Int))]⟩ : MemoryState).last_activity "s1").isSome))
    ∧ ((clear_session (⟨[("s1", [("q","a")])], [("s1", (0:Int))]⟩ : MemoryState) "s1").2
          = false →
        (clear_session (⟨[("s1", [("q","a")])], [("s1", (0:Int))]⟩ : MemoryState) "s1").1
          = (⟨[("s1", [("q","a")])], [("s1", (0:Int))]⟩ : MemoryState))
    ∧ (clear_session
        (clear_session (⟨[("s1", [("q","a")])], [("s1", (0:Int))]⟩ : MemoryState)
          "s1").1 "s1").2 = false
    ∧ (get_history
        (clear_session (⟨[("s1", [("q","a")])], [("s1", (0:Int))]⟩ : MemoryState)
          "s1").1 "s1" 1).2 = []
    ∧ (get_session_info
        (clear_session (⟨[("s1", [("q","a")])], [("s1", (0:Int))]⟩ : MemoryState)
          "s1").1 "s1" 1 100).2 = SessionInfo.absent :=
  claim_C4_clear_session ⟨[("s1", [("q","a")])], [("s1", (0:Int))]⟩ "s1" 1 100

/-- Claim C5: `get_history` on an unknown id returns the empty sequence and
leaves the store unchanged (session_count included); on an existing session
it returns the stored history and refreshes only that session's
timestamp. -/
theorem claim_C5_get_history_frame (s : MemoryState) (sid : String)
    (now now2 timeout : Int) :
    (dictLookup s.memory sid = none →
      (get_history s sid now).2 = []
      ∧ (get_history s sid now).1 = s
      ∧ (session_count (get_history s sid now).1 now2 timeout).2
          = (session_count s now2 timeout).2)
    ∧ (∀ h, dictLookup s.memory sid = some h →
        (get_history s sid now).2 = h
        ∧ (get_history s sid now).1.memory = s.memory
        ∧ (get_history s sid now).1.last_activity
            = dictInsert s.last_activity sid now) := by
  constructor
  · intro hl
    have h1 : (get_history s sid now).1 = s := by
      simp [get_history, hl]
    exact ⟨by simp [get_history, hl], h1, by rw [h1]⟩
  · intro h hl
    refine ⟨?_, ?_, ?_⟩ <;> simp [get_history, hl]

/-- Witness for C5: reading a nonexistent session of a one-session store. -/
theorem claim_C5_get_history_frame_witness :
    (dictLookup (⟨[("s1", [("q","a")])], [("s1", (0:Int))]⟩ : MemoryState).memory
        "nope" = none →
      (get_history (⟨[("s1", [("q","a")])], [("s1", (0:Int))]⟩ : MemoryState)
          "nope" 1).2 = []
      ∧ (get_history (⟨[("s1", [("q","a")])], [("s1", (0:Int))]⟩ : MemoryState)
          "nope" 1).1 = (⟨[("s1", [("q","a")])], [("s1", (0:Int))]⟩ : MemoryState)
      ∧ (session_count
          (get_history (⟨[("s1", [("q","a")])], [("s1", (0:Int))]⟩ : MemoryState)
            "nope" 1).1 1 100).2
          = (session_count (⟨[("s1", [("q","a")])], [("s1", (0:Int))]⟩ : MemoryState)
              1 100).2)
    ∧ (∀ h, dictLookup (⟨[("s1", [("q","a")])],
            [("s1", (0:Int))]⟩ : MemoryState).memory "nope" = some h →
        (get_history (⟨[("s1", [("q","a")])], [("s1", (0:Int))]⟩ : MemoryState)
            "nope" 1).2 = h
        ∧ (get_history (⟨[("s1", [("q","a")])], [("s1", (0:Int))]⟩ : MemoryState)
            "nope" 1).1.memory
            = (⟨[("s1", [("q","a")])], [("s1", (0:Int))]⟩ : MemoryState).memory
        ∧ (get_history (⟨[("s1", [("q","a")])], [("s1", (0:Int))]⟩ : MemoryState)
            "nope" 1).1.last_activity
            = dictInsert (⟨[("s1", [("q","a")])],
                [("s1", (0:Int))]⟩ : MemoryState).last_activity "nope" 1) :=
  claim_C5_get_history_frame ⟨[("s1", [("q","a")])], [("s1", (0:Int))]⟩ "nope" 1 1 100

/-- Claim C6: `get_langchain_format` maps each exchange (q, a) of the
session's history, in order, to a human message with content q immediately
followed by an AI message with content a, yielding exactly 2·n messages. -/
theorem claim_C6_generation_format (s : MemoryState) (sid : String) (now : Int) :
    (get_langchain_format s sid now).2
        = (histOf s sid).flatMap (fun p => [Message.human p.1, Message.ai p.2])
    ∧ (get_langchain_format s sid now).2.length = 2 * (histOf s sid).length := by
  have h2 : (get_langchain_format s sid now).2
      = (histOf s sid).foldl
          (fun msgs p => msgs ++ [Message.human p.1, Message.ai p.2]) [] := by
    by_cases hs : (dictLookup s.memory sid).isSome = true <;>
      simp [get_langchain_format, get_history, histOf, hs]
  rw [h2, foldl_msgs, List.nil_append]
  exact ⟨rfl, flatMap_msgs_length (histOf s sid)⟩

/-- Counterexample to claim C7: `get_all_sessions` returns the shallow copy
`dict(self._memory)`; the history lists are shared, so a later
`add_exchange` that appends in place (no truncation) changes what the
previously returned mapping observes: the snapshot of session `s1` grows
from one exchange to two. -/
theorem claim_C7_counterexample :
    observe (get_all_sessions_ref
        ⟨[(0, [("q", "a")])], [("s1", 0)], [("s1", 0)], 1⟩ 0 100).2
      (add_exchange_ref
        (get_all_sessions_ref
          ⟨[(0, [("q", "a")])], [("s1", 0)], [("s1", 0)], 1⟩ 0 100).1
        "s1" "q2" "a2" 0 100 10).heap "s1"
      = some [("q", "a"), ("q2", "a2")]
    ∧ observe (get_all_sessions_ref
        ⟨[(0, [("q", "a")])], [("s1", 0)], [("s1", 0)], 1⟩ 0 100).2
      (get_all_sessions_ref
        ⟨[(0, [("q", "a")])], [("s1", 0)], [("s1", 0)], 1⟩ 0 100).1.heap "s1"
      = some [("q", "a")] :=
  ⟨rfl, rfl⟩

/-- Amended claim C7: `get_all_sessions` triggers the sweep first and
returns `dict(self._memory)` — a copy of the top-level key → history-object
table.  That returned table is unaffected by later removals from the store
(e.g. `clear_session`), but the history objects it references are shared
with the store, not copied. -/
theorem claim_C7_amended (s : PyState) (now timeout : Int) (sid k : String) :
    ((get_all_sessions_ref s now timeout).1 = cleanup_ref s now timeout)
    ∧ ((get_all_sessions_ref s now timeout).2 = (cleanup_ref s now timeout).memory)
    ∧ (observe (get_all_sessions_ref s now timeout).2
        (clear_session_ref (get_all_sessions_ref s now timeout).1 sid).1.heap k
      = observe (get_all_sessions_ref s now timeout).2
          (get_all_sessions_ref s now timeout).1.heap k) :=
  ⟨rfl, rfl, rfl⟩

/-- Claim C8: `get_session_info` returns absence for an unknown session;
for a stored session with timestamp `t` it returns the history length, the
stored timestamp, and the live strict activity flag
`now - t < session_timeout`. -/
theorem claim_C8_session_info (s : MemoryState) (sid : String)
    (now timeout : Int) :
    (dictLookup s.memory sid = none →
      (get_session_info s sid now timeout).2 = SessionInfo.absent)
    ∧ (∀ h t, dictLookup s.memory sid = some h →
        dictLookup s.last_activity sid = some t →
        (get_session_info s sid now timeout).2
          = SessionInfo.present h.length (some t) (decide (now - t < timeout))) := by
  constructor
  · intro hl
    simp [get_session_info, hl]
  · intro h t hm hl
    simp [get_session_info, hm, hl]

/-- Witness for C8 at a one-session store. -/
theorem claim_C8_session_info_witness :
    (dictLookup (⟨[("s1", [("q","a")])], [("s1", (0:Int))]⟩ : MemoryState).memory
        "s1" = none →
      (get_session_info (⟨[("s1", [("q","a")])], [("s1", (0:Int))]⟩ : MemoryState)
          "s1" 1 100).2 = SessionInfo.absent)
    ∧ (∀ h t, dictLookup (⟨[("s1", [("q","a")])],
          [("s1", (0:Int))]⟩ : MemoryState).memory "s1" = some h →
        dictLookup (⟨[("s1", [("q","a")])],
          [("s1", (0:Int))]⟩ : MemoryState).last_activity "s1" = some t →
        (get_session_info (⟨[("s1", [("q","a")])], [("s1", (0:Int))]⟩ : MemoryState)
            "s1" 1 100).2
          = SessionInfo.present h.length (some t) (decide ((1:Int) - t < 100))) :=
  claim_C8_session_info ⟨[("s1", [("q","a")])], [("s1", (0:Int))]⟩ "s1" 1 100

/-- Claim C10: `get_session_info` leaves the store entirely unchanged — it
does not refresh the session's timestamp, so a later sweep behaves exactly
as if the info had never been read and the session's expiry is not
postponed. -/
theorem claim_C10_info_pure (s : MemoryState) (sid : String)
    (now now2 timeout timeout2 : Int) :
    (get_session_info s sid now timeout).1 = s
    ∧ cleanup_inactive_sessions (get_session_info s sid now timeout).1 now2 timeout2
        = cleanup_inactive_sessions s now2 timeout2 :=
  ⟨get_session_info_state s sid now timeout,
   by rw [get_session_info_state s sid now timeout]⟩

end MemoryService
